import Mathlib

/-!
Verification of the GetRichQuick mean-reversion backtesting engine.

This file shallowly embeds the core of the repository in Lean 4:

* `src/src/backtesting/engine.py` — the `BacktestEngine` class: trade
  lifecycle (`_open_position`, `_update_open_positions`, `_close_position`,
  `_close_remaining_positions`), the screening loop (`_simulate_screenings`,
  `_screen_for_date`), and result aggregation (`_generate_results`,
  `_create_holding_distribution`, `_create_empty_result`, `run`).
* `src/src/filters/performance_filter.py` — `calculate_worst_5day_performance`.
* `src/src/data/market_data.py` — `get_price_on_date`.

Modelling conventions:

* Dates are integer day numbers (`ℤ`).  The Python code stores entry dates as
  `"%Y-%m-%d"` strings and recovers them with `strptime`; both screening dates
  and entry dates carry the same time-of-day within one run, and
  `(exit_date - entry_dt).days` floors a non-negative sub-day remainder, so the
  round trip is the identity and the day difference is exact.
* Prices and money are exact rationals (`ℚ`).  Python floats are modelled as
  exact arithmetic; `round(x, 2)` is modelled as round-half-to-even at two
  decimal places (`pyRound2`).
* A pandas price `DataFrame` (the date index plus the `Close` column) is a
  `List (ℤ × ℚ)`; per the data model it is strictly increasing in date.
  The dict `ticker -> DataFrame` is an insertion-ordered association list.
* `open_positions : dict[str, Trade]` is an association list; insertion of a
  fresh key appends, `del` removes the key.  `closed_trades` is a list.
* `defaultdict(int)`-backed histograms are modelled by their lookup function
  `String → ℕ` (absent key ↦ count 0).
* Python's stable `list.sort(key=...)` is modelled by `List.insertionSort`
  (stable, so ties keep first-encountered order, as in the source).
* The external collaborators (index fetching, metadata, yfinance) are outside
  the core; `run` takes the already-fetched candidate tickers and price data
  as parameters and keeps the two empty-input guards of `BacktestEngine.run`.
-/

attribute [local semireducible] Rat.add Rat.sub Rat.mul Rat.inv Rat.ofScientific

/-- Mirror of the `Trade` dataclass (engine.py, lines 19-32). -/
structure Trade where
  ticker : String
  company_name : String
  entry_date : ℤ
  entry_price : ℚ
  shares : ℚ
  target_price : ℚ
  exit_date : Option ℤ := none
  exit_price : Option ℚ := none
  holding_days : Option ℤ := none
  pnl : Option ℚ := none
deriving DecidableEq

/-- Mirror of the `WorstPerformance` pydantic model (schemas.py, lines 44-51). -/
structure WorstPerformance where
  return_pct : ℚ
  start_date : ℤ
  end_date : ℤ
  start_price : ℚ
  end_price : ℚ
deriving DecidableEq

/-- Mirror of the candidate dict built in `_screen_for_date`
(engine.py, lines 251-259). -/
structure StockInfo where
  ticker : String
  return_pct : ℚ
  entry_price : ℚ
  target_price : ℚ
  company_name : String
deriving DecidableEq

/-- Engine state: the open-position map and the closed-trade ledger
(engine.py, lines 83-85). -/
structure EngineState where
  open_positions : List (String × Trade)
  closed_trades : List Trade
deriving DecidableEq

/-- Mirror of the `BacktestResult` dataclass (engine.py, lines 35-47); the
`holding_days_distribution` dict is modelled by its lookup function. -/
structure BacktestResult where
  trades : List Trade
  total_pnl : ℚ
  total_invested : ℚ
  total_trades : ℕ
  winning_trades : ℕ
  losing_trades : ℕ
  still_open : ℕ
  avg_holding_days : ℚ
  holding_days_distribution : String → ℕ

/-- Initial engine state (`__init__`): no open positions, empty ledger. -/
def initState : EngineState := ⟨[], []⟩

/-- Embedding of `market_data.get_price_on_date` (market_data.py, lines
118-149): try the exact date first (`hist.loc[date]`); on a miss take the
nearest prior date (`hist.index[hist.index <= date][-1]`); `none` when no
prior observation exists. -/
def get_price_on_date (hist : List (ℤ × ℚ)) (d : ℤ) : Option ℚ :=
  match hist.lookup d with
  | some p => some p
  | none =>
    match (hist.filter (fun q => decide (q.1 ≤ d))).getLast? with
    | some q => some q.2
    | none => none

/-- Specification-side definition, following §6 of the spec:
`get_price_on_or_before(series, date) -> price | none`, the last known price
on or before the date.  Stated independently of the source so that
`get_price_on_date` can be proved to refine it. -/
def lastPriceOnOrBefore (hist : List (ℤ × ℚ)) (d : ℤ) : Option ℚ :=
  ((hist.filter (fun q => decide (q.1 ≤ d))).getLast?).map Prod.snd

/-- Round-half-to-even of a rational to an integer; models Python's `round`
on an exactly-representable value. -/
def pyRoundHalfEven (y : ℚ) : ℤ :=
  let f := Rat.floor y
  let r := y - (f : ℚ)
  if r < 1/2 then f
  else if 1/2 < r then f + 1
  else if f % 2 = 0 then f else f + 1

/-- Models Python's `round(x, 2)` (performance_filter.py, lines 68-72):
round half to even at two decimal places, exact over `ℚ`. -/
def pyRound2 (x : ℚ) : ℚ := (pyRoundHalfEven (x * 100) : ℚ) / 100

/-- The pandas `pct_change(periods=5) * 100` value at row `i`:
`(price[i] - price[i-5]) / price[i-5] * 100` (performance_filter.py, line 35). -/
def pctChange5 (prices : List ℚ) (i : ℕ) : ℚ :=
  (prices.getD i 0 - prices.getD (i - 5) 0) / prices.getD (i - 5) 0 * 100

/-- Embedding of `performance_filter.calculate_worst_5day_performance`
(performance_filter.py, lines 13-73).  Rows `0..4` have no 5-day change
(`dropna`), so the valid rows are the indices `i ≥ 5`; `idxmin` returns the
first row attaining the minimum; the guard `idx_position < 5` is kept even
though valid rows always satisfy `i ≥ 5`.  All returned fields pass through
`round(..., 2)`. -/
def calculate_worst_5day_performance (hist : List (ℤ × ℚ)) :
    Option WorstPerformance :=
  if hist.length < 5 then none
  else
    let prices := hist.map Prod.snd
    match (List.range hist.length).filter (fun i => decide (5 ≤ i)) with
    | [] => none
    | i0 :: rest =>
      let worst_idx := rest.foldl
        (fun best j =>
          if pctChange5 prices j < pctChange5 prices best then j else best) i0
      if worst_idx < 5 then none
      else
        some
          { return_pct := pyRound2 (pctChange5 prices worst_idx)
            start_date := (hist.getD (worst_idx - 5) (0, 0)).1
            end_date := (hist.getD worst_idx (0, 0)).1
            start_price := pyRound2 (hist.getD (worst_idx - 5) (0, 0)).2
            end_price := pyRound2 (hist.getD worst_idx (0, 0)).2 }

/-- The series slice the Candidate Selector hands to the evaluator
(engine.py, lines 221-237): all observations on or before the screening date,
then only the trailing 10 (`hist_up_to_date.tail(10)`). -/
def recentWindow (hist : List (ℤ × ℚ)) (d : ℤ) : List (ℤ × ℚ) :=
  let up := hist.filter (fun p => decide (p.1 ≤ d))
  up.drop (up.length - 10)

/-- The per-ticker body of the `_screen_for_date` loop (engine.py, lines
221-259): truncate to the screening date, require at least 10 observations,
evaluate the worst 5-day window on the trailing 10, keep only negative
returns, look up the current price, and build the candidate record with
`target_price := perf.start_price` and `company_name := ticker`. -/
def screen_candidate (d : ℤ) (tk : String) (hist : List (ℤ × ℚ)) :
    Option StockInfo :=
  if (hist.filter (fun p => decide (p.1 ≤ d))).length < 10 then none
  else
    match calculate_worst_5day_performance (recentWindow hist d) with
    | none => none
    | some perf =>
      if perf.return_pct ≥ 0 then none
      else
        match get_price_on_date hist d with
        | none => none
        | some cp =>
          some { ticker := tk, return_pct := perf.return_pct,
                 entry_price := cp, target_price := perf.start_price,
                 company_name := tk }

/-- Embedding of `BacktestEngine._screen_for_date` (engine.py, lines
211-274): collect candidates over the ticker map in order, return `none`
when empty, otherwise stable-sort by `return_pct` ascending and take the
first (the worst performer; ties keep first-encountered order, as Python's
stable sort does). -/
def screen_for_date (data : List (String × List (ℤ × ℚ))) (d : ℤ) :
    Option StockInfo :=
  let candidates := data.filterMap (fun p => screen_candidate d p.1 p.2)
  if candidates.isEmpty then none
  else (candidates.insertionSort
        (fun a b => a.return_pct ≤ b.return_pct)).head?

/-- Embedding of `BacktestEngine._open_position` (engine.py, lines 276-308):
no-op when the ticker already has an open position; no-op when
`target_price ≤ entry_price`; otherwise insert a new open trade with
`shares = investment_per_trade / entry_price`. -/
def open_position (inv : ℚ) (info : StockInfo) (entry_date : ℤ)
    (s : EngineState) : EngineState :=
  if (s.open_positions.lookup info.ticker).isSome then s
  else if info.target_price ≤ info.entry_price then s
  else
    let shares := inv / info.entry_price
    let trade : Trade :=
      { ticker := info.ticker, company_name := info.company_name,
        entry_date := entry_date, entry_price := info.entry_price,
        shares := shares, target_price := info.target_price }
    { s with open_positions := s.open_positions ++ [(info.ticker, trade)] }

/-- The closed version of an open trade (engine.py, lines 343-354):
`holding_days = exit_date - entry_date`,
`pnl = shares * (exit_price - entry_price)`. -/
def closeTrade (tr : Trade) (exit_price : ℚ) (exit_date : ℤ) : Trade :=
  { tr with
    exit_date := some exit_date
    exit_price := some exit_price
    holding_days := some (exit_date - tr.entry_date)
    pnl := some (tr.shares * (exit_price - tr.entry_price)) }

/-- Embedding of `BacktestEngine._close_position` (engine.py, lines 334-363):
no-op when the ticker has no open trade; otherwise append the closed trade to
the ledger and delete the ticker from the open map. -/
def close_position (tk : String) (exit_price : ℚ) (exit_date : ℤ)
    (s : EngineState) : EngineState :=
  match s.open_positions.lookup tk with
  | none => s
  | some tr =>
    { open_positions := s.open_positions.filter (fun p => decide (p.1 ≠ tk))
      closed_trades := s.closed_trades ++ [closeTrade tr exit_price exit_date] }

/-- Embedding of `BacktestEngine._update_open_positions` (engine.py, lines
310-332): first collect, over the open map in order, every position whose
ticker has data and whose current price is at least the target; then close
each collected position at that price and date. -/
def update_open_positions (data : List (String × List (ℤ × ℚ))) (d : ℤ)
    (s : EngineState) : EngineState :=
  let toClose := s.open_positions.filterMap (fun p =>
    match data.lookup p.1 with
    | none => none
    | some hist =>
      match get_price_on_date hist d with
      | none => none
      | some cp =>
        if cp ≥ p.2.target_price then some (p.1, cp) else none)
  toClose.foldl (fun st q => close_position q.1 q.2 d st) s

/-- One iteration of the `_simulate_screenings` while-loop (engine.py, lines
192-207): update open positions (exit checks) first, then screen, then open
the found candidate if any. -/
def simulate_step (inv : ℚ) (data : List (String × List (ℤ × ℚ)))
    (s : EngineState) (d : ℤ) : EngineState :=
  let s1 := update_open_positions data d s
  match screen_for_date data d with
  | some w => open_position inv w d s1
  | none => s1

/-- The screening-date schedule of `_simulate_screenings` (engine.py, lines
186-207): `start, start+step, ...` while the date is at most `endD`
(both ends inclusive).  Only terminating configurations (`0 < step`) are
modelled. -/
def screeningDates (start endD step : ℤ) : List ℤ :=
  if 0 < step ∧ start ≤ endD then
    (List.range (((endD - start) / step).toNat + 1)).map
      (fun k => start + step * (k : ℤ))
  else []

/-- Embedding of `BacktestEngine._simulate_screenings` (engine.py, lines
184-209): fold the per-date step over the screening-date schedule. -/
def simulate_screenings (inv : ℚ) (data : List (String × List (ℤ × ℚ)))
    (start endD step : ℤ) (s : EngineState) : EngineState :=
  (screeningDates start endD step).foldl (simulate_step inv data) s

/-- Embedding of `BacktestEngine._close_remaining_positions` (engine.py,
lines 365-380): snapshot the open tickers, then close each at its last
available price as of `now`; tickers without data or without a price stay
open. -/
def close_remaining_positions (data : List (String × List (ℤ × ℚ)))
    (now : ℤ) (s : EngineState) : EngineState :=
  (s.open_positions.map Prod.fst).foldl (fun st tk =>
    match data.lookup tk with
    | none => st
    | some hist =>
      match get_price_on_date hist now with
      | some p => close_position tk p now st
      | none => st) s

/-- The bucket boundaries of `_create_holding_distribution` (engine.py,
lines 437-446); `none` as upper bound stands for `float("inf")`. -/
def bucketRanges : List (ℤ × Option ℤ × String) :=
  [(0, some 7, "0-7 days"), (7, some 14, "7-14 days"),
   (14, some 30, "14-30 days"), (30, some 60, "30-60 days"),
   (60, some 90, "60-90 days"), (90, some 180, "90-180 days"),
   (180, some 365, "180-365 days"), (365, none, "365+ days")]

/-- Membership test `min_days <= days < max_days` of one bucket
(engine.py, line 450). -/
def inBucket (days : ℤ) (r : ℤ × Option ℤ × String) : Bool :=
  decide (r.1 ≤ days) &&
    (match r.2.1 with
     | some hi => decide (days < hi)
     | none => true)

/-- The label of the first bucket containing `days` (the inner loop of
`_create_holding_distribution` `break`s after the first hit). -/
def firstBucket (days : ℤ) : Option String :=
  (bucketRanges.find? (inBucket days)).map (fun r => r.2.2)

/-- Increment of one key of a `defaultdict(int)` histogram. -/
def incr (f : String → ℕ) (k : String) : String → ℕ :=
  fun x => if x = k then f x + 1 else f x

/-- Embedding of `BacktestEngine._create_holding_distribution` (engine.py,
lines 431-454): empty input gives the empty dict; otherwise each value is
counted into the first bucket containing it. -/
def create_holding_distribution (hd : List ℤ) : String → ℕ :=
  if hd.isEmpty then fun _ => 0
  else
    hd.foldl (fun dist days =>
      match firstBucket days with
      | some label => incr dist label
      | none => dist) (fun _ => 0)

/-- The list `[t.holding_days for t in closed_trades if t.holding_days]`
(engine.py, line 395).  Python truthiness drops both `None` and `0`. -/
def closedHoldingDays (closed : List Trade) : List ℤ :=
  closed.filterMap (fun t =>
    match t.holding_days with
    | some h => if h ≠ 0 then some h else none
    | none => none)

/-- Truthiness test `t.pnl and t.pnl > 0` (engine.py, line 390). -/
def pnlTruthyPos (t : Trade) : Bool :=
  match t.pnl with
  | some p => decide (p ≠ 0) && decide (0 < p)
  | none => false

/-- Truthiness test `t.pnl and t.pnl < 0` (engine.py, line 391). -/
def pnlTruthyNeg (t : Trade) : Bool :=
  match t.pnl with
  | some p => decide (p ≠ 0) && decide (p < 0)
  | none => false

/-- Embedding of `BacktestEngine._generate_results` (engine.py, lines
382-429). -/
def generate_results (inv : ℚ) (s : EngineState) : BacktestResult :=
  let all_trades := s.closed_trades ++ s.open_positions.map Prod.snd
  let closed_holding_days := closedHoldingDays s.closed_trades
  { trades := all_trades
    total_pnl := (s.closed_trades.filterMap Trade.pnl).sum
    total_invested := (all_trades.length : ℚ) * inv
    total_trades := all_trades.length
    winning_trades := s.closed_trades.countP pnlTruthyPos
    losing_trades := s.closed_trades.countP pnlTruthyNeg
    still_open := s.open_positions.length
    avg_holding_days :=
      if closed_holding_days.isEmpty then 0
      else (closed_holding_days.sum : ℚ) / (closed_holding_days.length : ℚ)
    holding_days_distribution := create_holding_distribution closed_holding_days }

/-- Embedding of `BacktestEngine._create_empty_result` (engine.py, lines
456-468). -/
def create_empty_result : BacktestResult :=
  { trades := [], total_pnl := 0, total_invested := 0, total_trades := 0,
    winning_trades := 0, losing_trades := 0, still_open := 0,
    avg_holding_days := 0, holding_days_distribution := fun _ => 0 }

/-- Embedding of `BacktestEngine.run` (engine.py, lines 88-136), taking the
externally fetched candidate tickers and price data as inputs: empty
candidate universe or empty price-data collection short-circuits to the
empty result before the date loop; otherwise simulate from
`now - 365 * lookback_years` to `now`, force-close survivors at `now`, and
aggregate. -/
def run (inv : ℚ) (tickers : List String)
    (data : List (String × List (ℤ × ℚ))) (now lookback_years freq : ℤ) :
    BacktestResult :=
  if tickers.isEmpty then create_empty_result
  else if data.isEmpty then create_empty_result
  else
    let s1 := simulate_screenings inv data (now - 365 * lookback_years) now
      freq initState
    let s2 := close_remaining_positions data now s1
    generate_results inv s2

/-- A call into the Position Lifecycle Manager: one of
`_open_position`, `_update_open_positions`, `_close_position`. -/
inductive EngineOp where
  | openPos (info : StockInfo) (d : ℤ)
  | updatePos (d : ℤ)
  | closePos (tk : String) (price : ℚ) (d : ℤ)

/-- Apply one lifecycle call to the engine state. -/
def applyOp (inv : ℚ) (data : List (String × List (ℤ × ℚ)))
    (s : EngineState) : EngineOp → EngineState
  | .openPos info d => open_position inv info d s
  | .updatePos d => update_open_positions data d s
  | .closePos tk p d => close_position tk p d s

/-- Run a sequence of lifecycle calls from the freshly initialised engine. -/
def runOps (inv : ℚ) (data : List (String × List (ℤ × ℚ)))
    (ops : List EngineOp) : EngineState :=
  ops.foldl (applyOp inv data) initState

/-! ### Association-list helper lemmas -/

/-- A successful lookup key-value pair is a member of the list. -/
theorem mem_of_lookup_eq_some {α β : Type} [BEq α] [LawfulBEq α]
    {l : List (α × β)} {a : α} {b : β} (h : l.lookup a = some b) :
    (a, b) ∈ l := by
  induction l with
  | nil => simp [List.lookup] at h
  | cons p t ih =>
    rw [List.lookup] at h
    by_cases hk : a == p.1
    · rw [hk] at h
      have ha : a = p.1 := eq_of_beq hk
      cases h
      simp [ha]
    · rw [Bool.not_eq_true] at hk
      rw [hk] at h
      exact List.mem_cons_of_mem _ (ih h)

/-- A failed lookup means no pair of the list carries the key. -/
theorem lookup_eq_none_forall {α β : Type} [BEq α] [LawfulBEq α]
    {l : List (α × β)} {a : α} (h : l.lookup a = none) :
    ∀ p ∈ l, p.1 ≠ a := by
  induction l with
  | nil => simp
  | cons p t ih =>
    rw [List.lookup] at h
    by_cases hk : a == p.1
    · rw [hk] at h; cases h
    · rw [Bool.not_eq_true] at hk
      rw [hk] at h
      intro q hq
      rcases List.mem_cons.mp hq with rfl | hq
      · exact fun hc => (by simp [hc] at hk)
      · exact ih h q hq

/-- A key that is a member of the key list looks up successfully. -/
theorem lookup_isSome_of_mem_keys {α β : Type} [BEq α] [LawfulBEq α]
    {l : List (α × β)} {a : α} (h : a ∈ l.map Prod.fst) :
    (l.lookup a).isSome := by
  induction l with
  | nil => simp at h
  | cons p t ih =>
    rw [List.lookup]
    by_cases hk : a == p.1
    · rw [hk]; rfl
    · rw [Bool.not_eq_true] at hk
      rw [hk]
      rcases List.mem_cons.mp h with h1 | h1
      · simp [h1] at hk
      · exact ih h1

/-- Filtering away a key makes its lookup fail. -/
theorem lookup_filter_ne_eq_none {α β : Type} [BEq α] [LawfulBEq α]
    [DecidableEq α] (l : List (α × β)) (a : α) :
    (l.filter (fun p => decide (p.1 ≠ a))).lookup a = none := by
  induction l with
  | nil => rfl
  | cons p t ih =>
    obtain ⟨k, b⟩ := p
    by_cases hp : k = a
    · have hd : (decide (((k, b) : α × β).1 ≠ a)) = false := by simp [hp]
      rw [List.filter, hd]
      exact ih
    · have hd : (decide (((k, b) : α × β).1 ≠ a)) = true := by simp [hp]
      rw [List.filter, hd]
      rw [List.lookup]
      have hbeq : (a == k) = false :=
        beq_eq_false_iff_ne.mpr (fun hc => hp hc.symm)
      rw [hbeq]
      exact ih

/-! ### C3 -/

/-- C3: every Trade transitions OPEN to CLOSED at most once.  Closing a
ticker with no OPEN trade leaves the engine state (open map and closed
ledger) unchanged; after a close the ticker is no longer open; and a second
close of the same ticker is a no-op, so double-closing is harmless. -/
theorem exactly_once_close :
    (∀ (tk : String) (p : ℚ) (d : ℤ) (s : EngineState),
      s.open_positions.lookup tk = none → close_position tk p d s = s) ∧
    (∀ (tk : String) (p : ℚ) (d : ℤ) (s : EngineState),
      (close_position tk p d s).open_positions.lookup tk = none ∨
        s.open_positions.lookup tk = none) ∧
    (∀ (tk : String) (p₁ : ℚ) (d₁ : ℤ) (p₂ : ℚ) (d₂ : ℤ) (s : EngineState),
      close_position tk p₂ d₂ (close_position tk p₁ d₁ s) =
        close_position tk p₁ d₁ s) := by
  have hnoop : ∀ (tk : String) (p : ℚ) (d : ℤ) (s : EngineState),
      s.open_positions.lookup tk = none → close_position tk p d s = s := by
    intro tk p d s h
    unfold close_position
    rw [h]
  have hgone : ∀ (tk : String) (p : ℚ) (d : ℤ) (s : EngineState) (tr : Trade),
      s.open_positions.lookup tk = some tr →
      (close_position tk p d s).open_positions.lookup tk = none := by
    intro tk p d s tr h
    unfold close_position
    rw [h]
    exact lookup_filter_ne_eq_none _ _
  refine ⟨hnoop, ?_, ?_⟩
  · intro tk p d s
    cases h : s.open_positions.lookup tk with
    | none => exact Or.inr rfl
    | some tr => exact Or.inl (hgone tk p d s tr h)
  · intro tk p₁ d₁ p₂ d₂ s
    cases h : s.open_positions.lookup tk with
    | none => rw [hnoop tk p₁ d₁ s h]; exact hnoop tk p₂ d₂ s h
    | some tr => exact hnoop tk p₂ d₂ _ (hgone tk p₁ d₁ s tr h)

/-- Witness for C3 at a concrete state: closing ticker "B" (not open) is a
no-op, and closing "A" twice equals closing it once. -/
theorem exactly_once_close_witness :
    close_position "B" 30 5
        ⟨[("A", ⟨"A", "A", 0, 25, 2, 30, none, none, none, none⟩)], []⟩ =
      ⟨[("A", ⟨"A", "A", 0, 25, 2, 30, none, none, none, none⟩)], []⟩ ∧
    close_position "A" 31 6 (close_position "A" 30 5
        ⟨[("A", ⟨"A", "A", 0, 25, 2, 30, none, none, none, none⟩)], []⟩) =
      close_position "A" 30 5
        ⟨[("A", ⟨"A", "A", 0, 25, 2, 30, none, none, none, none⟩)], []⟩ :=
  ⟨exactly_once_close.1 "B" 30 5 _ (by decide),
   exactly_once_close.2.2 "A" 30 5 31 6 _⟩

/-! ### C4 -/

/-- C4: opening a position under the guards creates a trade with
`shares = investment_per_trade / entry_price`, and closing an OPEN trade
appends to the ledger a closed copy with
`holding_days = exit_date - entry_date` (calendar days) and
`pnl = shares * (exit_price - entry_price)`. -/
theorem close_computes_pnl_and_holding :
    (∀ (inv : ℚ) (info : StockInfo) (d : ℤ) (s : EngineState),
      s.open_positions.lookup info.ticker = none →
      ¬ info.target_price ≤ info.entry_price →
      ∃ tr : Trade,
        (open_position inv info d s).open_positions =
          s.open_positions ++ [(info.ticker, tr)] ∧
        tr.shares = inv / info.entry_price ∧
        tr.entry_price = info.entry_price ∧
        tr.entry_date = d ∧
        tr.target_price = info.target_price) ∧
    (∀ (tk : String) (p : ℚ) (d : ℤ) (s : EngineState) (tr : Trade),
      s.open_positions.lookup tk = some tr →
      ∃ ct : Trade,
        (close_position tk p d s).closed_trades =
          s.closed_trades ++ [ct] ∧
        ct.holding_days = some (d - tr.entry_date) ∧
        ct.pnl = some (tr.shares * (p - tr.entry_price)) ∧
        ct.shares = tr.shares ∧
        ct.entry_price = tr.entry_price ∧
        ct.exit_price = some p ∧
        ct.exit_date = some d) := by
  constructor
  · intro inv info d s h1 h2
    unfold open_position
    rw [h1]
    simp only [Option.isSome_none, Bool.false_eq_true, if_false, h2, if_false]
    exact ⟨_, rfl, rfl, rfl, rfl, rfl⟩
  · intro tk p d s tr h
    unfold close_position
    rw [h]
    exact ⟨closeTrade tr p d, rfl, rfl, rfl, rfl, rfl, rfl, rfl⟩

/-- Witness for C4, the spec scenario: investment 50, entry price 25 gives
shares = 2; exiting at 30 after 3 days gives pnl = 10 and holding_days = 3. -/
theorem close_computes_pnl_and_holding_witness :
    (∃ tr : Trade,
      (open_position 50 ⟨"A", -10, 25, 30, "A"⟩ 0 initState).open_positions =
        initState.open_positions ++ [("A", tr)] ∧
      tr.shares = 50 / 25 ∧
      tr.entry_price = 25 ∧
      tr.entry_date = 0 ∧
      tr.target_price = 30) ∧
    (∃ ct : Trade,
      (close_position "A" 30 3
          ⟨[("A", ⟨"A", "A", 0, 25, 2, 30, none, none, none, none⟩)],
           []⟩).closed_trades =
        [] ++ [ct] ∧
      ct.holding_days = some (3 - 0) ∧
      ct.pnl = some (2 * (30 - 25)) ∧
      ct.shares = 2 ∧
      ct.entry_price = 25 ∧
      ct.exit_price = some 30 ∧
      ct.exit_date = some 3) ∧
    (50 : ℚ) / 25 = 2 ∧ (2 : ℚ) * (30 - 25) = 10 :=
  ⟨close_computes_pnl_and_holding.1 50 ⟨"A", -10, 25, 30, "A"⟩ 0 initState
      (by decide) (by decide),
   close_computes_pnl_and_holding.2 "A" 30 3
      ⟨[("A", ⟨"A", "A", 0, 25, 2, 30, none, none, none, none⟩)], []⟩
      ⟨"A", "A", 0, 25, 2, 30, none, none, none, none⟩ (by decide),
   by decide, by decide⟩

/-! ### C9 -/

/-- C9: with an empty candidate universe, or no fetched price series, `run`
short-circuits before the date loop and returns the well-formed empty
result: no trades, every count and sum zero, empty distribution. -/
theorem run_empty_short_circuit :
    ∀ (inv : ℚ) (tickers : List String)
      (data : List (String × List (ℤ × ℚ))) (now lookback freq : ℤ),
      tickers = [] ∨ data = [] →
      run inv tickers data now lookback freq = create_empty_result ∧
      (run inv tickers data now lookback freq).total_trades = 0 ∧
      (run inv tickers data now lookback freq).trades = [] ∧
      (run inv tickers data now lookback freq).total_pnl = 0 ∧
      (run inv tickers data now lookback freq).total_invested = 0 ∧
      (run inv tickers data now lookback freq).winning_trades = 0 ∧
      (run inv tickers data now lookback freq).losing_trades = 0 ∧
      (run inv tickers data now lookback freq).still_open = 0 ∧
      (run inv tickers data now lookback freq).avg_holding_days = 0 ∧
      ∀ label,
        (run inv tickers data now lookback freq).holding_days_distribution
          label = 0 := by
  intro inv tickers data now lookback freq h
  have hrun : run inv tickers data now lookback freq = create_empty_result := by
    unfold run
    rcases h with rfl | rfl
    · rfl
    · cases tickers <;> rfl
  rw [hrun]
  exact ⟨rfl, rfl, rfl, rfl, rfl, rfl, rfl, rfl, rfl, fun _ => rfl⟩

/-- Witness for C9 at a concrete configuration: an empty universe yields the
empty result. -/
theorem run_empty_short_circuit_witness :
    run 50 [] [("A", [(0, (100 : ℚ))])] 1825 5 7 = create_empty_result ∧
    (run 50 [] [("A", [(0, (100 : ℚ))])] 1825 5 7).total_trades = 0 :=
  ⟨(run_empty_short_circuit 50 [] _ 1825 5 7 (Or.inl rfl)).1,
   (run_empty_short_circuit 50 [] _ 1825 5 7 (Or.inl rfl)).2.1⟩

/-! ### State invariants: C1 and C2 -/

/-- Opening never removes pairs: the open map either stays or gains one
fresh entry whose trade satisfies the target guard. -/
theorem open_position_cases (inv : ℚ) (info : StockInfo) (d : ℤ)
    (s : EngineState) :
    open_position inv info d s = s ∨
    ((s.open_positions.lookup info.ticker = none) ∧
     ¬ info.target_price ≤ info.entry_price ∧
     ∃ tr : Trade,
       tr.entry_price = info.entry_price ∧
       tr.target_price = info.target_price ∧
       (open_position inv info d s).open_positions =
         s.open_positions ++ [(info.ticker, tr)] ∧
       (open_position inv info d s).closed_trades = s.closed_trades) := by
  unfold open_position
  cases hl : s.open_positions.lookup info.ticker with
  | some tr => simp
  | none =>
    by_cases hg : info.target_price ≤ info.entry_price
    · simp [hg]
    · right
      refine ⟨rfl, hg,
        ⟨{ ticker := info.ticker, company_name := info.company_name,
           entry_date := d, entry_price := info.entry_price,
           shares := inv / info.entry_price,
           target_price := info.target_price },
         rfl, rfl, ?_, ?_⟩⟩ <;> simp [hg]

/-- Closing only filters the open map and appends to the ledger. -/
theorem close_position_open_sub (tk : String) (p : ℚ) (d : ℤ)
    (s : EngineState) :
    (close_position tk p d s).open_positions = s.open_positions ∨
    (close_position tk p d s).open_positions =
      s.open_positions.filter (fun q => decide (q.1 ≠ tk)) := by
  unfold close_position
  cases s.open_positions.lookup tk with
  | none => exact Or.inl rfl
  | some tr => exact Or.inr rfl

/-- Distinct-key invariant is preserved by one close. -/
theorem nodup_keys_close (tk : String) (p : ℚ) (d : ℤ) (s : EngineState)
    (h : ((s.open_positions.map Prod.fst).Nodup)) :
    (((close_position tk p d s).open_positions.map Prod.fst).Nodup) := by
  rcases close_position_open_sub tk p d s with he | he <;> rw [he]
  · exact h
  · exact h.sublist (List.Sublist.map Prod.fst (List.filter_sublist _))

/-- Distinct-key invariant is preserved by a fold of closes. -/
theorem nodup_keys_foldl_close (l : List (String × ℚ)) (d : ℤ) :
    ∀ s : EngineState, ((s.open_positions.map Prod.fst).Nodup) →
    (((l.foldl (fun st q => close_position q.1 q.2 d st) s).open_positions.map
        Prod.fst).Nodup) := by
  induction l with
  | nil => intro s h; exact h
  | cons q t ih =>
    intro s h
    exact ih _ (nodup_keys_close q.1 q.2 d s h)

/-- Distinct-key invariant is preserved by one open. -/
theorem nodup_keys_open (inv : ℚ) (info : StockInfo) (d : ℤ)
    (s : EngineState) (h : ((s.open_positions.map Prod.fst).Nodup)) :
    (((open_position inv info d s).open_positions.map Prod.fst).Nodup) := by
  rcases open_position_cases inv info d s with he | ⟨hl, _, tr, _, _, he, _⟩
  · rw [he]; exact h
  · rw [he]
    have hni : info.ticker ∉ s.open_positions.map Prod.fst := by
      intro hmem
      have := lookup_isSome_of_mem_keys hmem
      rw [hl] at this
      cases this
    simp only [List.map_append, List.map_cons, List.map_nil]
    refine List.Nodup.append h (List.nodup_singleton _) ?_
    intro a ha hb
    exact hni ((List.mem_singleton.mp hb) ▸ ha)

/-- Distinct-key invariant is preserved by every lifecycle call. -/
theorem nodup_keys_applyOp (inv : ℚ)
    (data : List (String × List (ℤ × ℚ))) (s : EngineState) (op : EngineOp)
    (h : ((s.open_positions.map Prod.fst).Nodup)) :
    (((applyOp inv data s op).open_positions.map Prod.fst).Nodup) := by
  cases op with
  | openPos info d => exact nodup_keys_open inv info d s h
  | updatePos d => exact nodup_keys_foldl_close _ d s h
  | closePos tk p d => exact nodup_keys_close tk p d s h

/-- Distinct-key invariant holds in every reachable state. -/
theorem nodup_keys_runOps (inv : ℚ)
    (data : List (String × List (ℤ × ℚ))) (ops : List EngineOp) :
    (((runOps inv data ops).open_positions.map Prod.fst).Nodup) := by
  suffices h : ∀ (s : EngineState), ((s.open_positions.map Prod.fst).Nodup) →
      (((ops.foldl (applyOp inv data) s).open_positions.map Prod.fst).Nodup) by
    exact h initState List.nodup_nil
  induction ops with
  | nil => intro s hs; exact hs
  | cons op t ih =>
    intro s hs
    exact ih _ (nodup_keys_applyOp inv data s op hs)

/-- C1: in every state reachable by open/update/close calls the open-position
map has pairwise-distinct tickers (at most one OPEN trade per ticker), and
`open` is a no-op when the candidate's ticker already has an OPEN trade. -/
theorem single_position_per_ticker :
    (∀ (inv : ℚ) (data : List (String × List (ℤ × ℚ)))
        (ops : List EngineOp),
      (((runOps inv data ops).open_positions.map Prod.fst).Nodup)) ∧
    (∀ (inv : ℚ) (info : StockInfo) (d : ℤ) (s : EngineState),
      (s.open_positions.lookup info.ticker).isSome →
      open_position inv info d s = s) := by
  constructor
  · exact nodup_keys_runOps
  · intro inv info d s h
    unfold open_position
    rw [h]
    rfl

/-- Witness for C1: a run that opens "A" twice holds one open position, and a
direct second open of "A" against a state already holding "A" is an identity. -/
theorem single_position_per_ticker_witness :
    (((runOps 50 []
        [EngineOp.openPos ⟨"A", -20, 40, 50, "A"⟩ 0,
         EngineOp.openPos ⟨"A", -20, 30, 50, "A"⟩ 7]).open_positions.map
          Prod.fst).Nodup) ∧
    open_position 50 ⟨"A", -20, 30, 50, "A"⟩ 7
        ⟨[("A", ⟨"A", "A", 0, 40, 50/40, 50, none, none, none, none⟩)], []⟩ =
      ⟨[("A", ⟨"A", "A", 0, 40, 50/40, 50, none, none, none, none⟩)], []⟩ :=
  ⟨single_position_per_ticker.1 50 [] _,
   single_position_per_ticker.2 50 ⟨"A", -20, 30, 50, "A"⟩ 7 _ (by decide)⟩

/-- Target-price invariant: every open trade has entry strictly below
target; preserved by one close. -/
theorem target_invariant_close (tk : String) (p : ℚ) (d : ℤ)
    (s : EngineState)
    (h : ∀ q ∈ s.open_positions, q.2.entry_price < q.2.target_price) :
    ∀ q ∈ (close_position tk p d s).open_positions,
      q.2.entry_price < q.2.target_price := by
  rcases close_position_open_sub tk p d s with he | he <;> rw [he]
  · exact h
  · exact fun q hq => h q (List.mem_of_mem_filter hq)

/-- Target-price invariant is preserved by a fold of closes. -/
theorem target_invariant_foldl_close (l : List (String × ℚ)) (d : ℤ) :
    ∀ s : EngineState,
    (∀ q ∈ s.open_positions, q.2.entry_price < q.2.target_price) →
    ∀ q ∈ (l.foldl (fun st q => close_position q.1 q.2 d st) s).open_positions,
      q.2.entry_price < q.2.target_price := by
  induction l with
  | nil => intro s h; exact h
  | cons a t ih =>
    intro s h
    exact ih _ (target_invariant_close a.1 a.2 d s h)

/-- Target-price invariant is preserved by one open. -/
theorem target_invariant_open (inv : ℚ) (info : StockInfo) (d : ℤ)
    (s : EngineState)
    (h : ∀ q ∈ s.open_positions, q.2.entry_price < q.2.target_price) :
    ∀ q ∈ (open_position inv info d s).open_positions,
      q.2.entry_price < q.2.target_price := by
  rcases open_position_cases inv info d s with he | ⟨_, hg, tr, he1, he2, he, _⟩
  · rw [he]; exact h
  · rw [he]
    intro q hq
    rcases List.mem_append.mp hq with hq | hq
    · exact h q hq
    · rcases List.mem_singleton.mp hq with rfl
      rw [he1, he2]
      exact lt_of_not_le hg

/-- Target-price invariant holds in every reachable state. -/
theorem target_invariant_runOps (inv : ℚ)
    (data : List (String × List (ℤ × ℚ))) (ops : List EngineOp) :
    ∀ q ∈ (runOps inv data ops).open_positions,
      q.2.entry_price < q.2.target_price := by
  suffices h : ∀ (s : EngineState),
      (∀ q ∈ s.open_positions, q.2.entry_price < q.2.target_price) →
      ∀ q ∈ (ops.foldl (applyOp inv data) s).open_positions,
        q.2.entry_price < q.2.target_price by
    exact h initState (by intro q hq; cases hq)
  induction ops with
  | nil => intro s hs; exact hs
  | cons op t ih =>
    intro s hs
    refine ih _ ?_
    cases op with
    | openPos info d => exact target_invariant_open inv info d s hs
    | updatePos d => exact target_invariant_foldl_close _ d s hs
    | closePos tk p d => exact target_invariant_close tk p d s hs

/-- C2: in every reachable state, every trade in the open-position map has
`target_price > entry_price`, and `open` on a candidate with
`target_price ≤ entry_price` is a no-op (the candidate is skipped, nothing
is raised and no trade is created). -/
theorem open_target_guard :
    (∀ (inv : ℚ) (data : List (String × List (ℤ × ℚ)))
        (ops : List EngineOp),
      ∀ q ∈ (runOps inv data ops).open_positions,
        q.2.entry_price < q.2.target_price) ∧
    (∀ (inv : ℚ) (info : StockInfo) (d : ℤ) (s : EngineState),
      info.target_price ≤ info.entry_price →
      open_position inv info d s = s) := by
  constructor
  · exact target_invariant_runOps
  · intro inv info d s h
    unfold open_position
    cases s.open_positions.lookup info.ticker with
    | some tr => rfl
    | none => simp [h]

/-- Witness for C2: the position opened by a run satisfies the guard, and a
candidate with target 30 ≤ entry 40 is skipped. -/
theorem open_target_guard_witness :
    ((("A", (⟨"A", "A", 0, 40, 50/40, 50, none, none, none, none⟩ : Trade)) :
        String × Trade)).2.entry_price <
      ((("A", (⟨"A", "A", 0, 40, 50/40, 50, none, none, none, none⟩ : Trade)) :
        String × Trade)).2.target_price ∧
    open_position 50 ⟨"A", -20, 40, 30, "A"⟩ 0 initState = initState :=
  ⟨open_target_guard.1 50 [] [EngineOp.openPos ⟨"A", -20, 40, 50, "A"⟩ 0]
      ("A", ⟨"A", "A", 0, 40, 50/40, 50, none, none, none, none⟩) (by decide),
   open_target_guard.2 50 ⟨"A", -20, 40, 30, "A"⟩ 0 initState (by decide)⟩

/-! ### C6 -/

/-- Opening a position never touches the closed ledger. -/
theorem open_position_closed_trades (inv : ℚ) (info : StockInfo) (d : ℤ)
    (s : EngineState) :
    (open_position inv info d s).closed_trades = s.closed_trades := by
  rcases open_position_cases inv info d s with he | ⟨_, _, _, _, _, _, he⟩
  · rw [he]
  · exact he

/-- A trade appended to the ledger by one close comes from the open map. -/
theorem close_position_closed_src (tk : String) (p : ℚ) (d : ℤ)
    (s : EngineState) (t : Trade)
    (h : t ∈ (close_position tk p d s).closed_trades) :
    t ∈ s.closed_trades ∨
    ∃ pr ∈ s.open_positions,
      t.ticker = pr.2.ticker ∧ t.entry_date = pr.2.entry_date := by
  unfold close_position at h
  cases hl : s.open_positions.lookup tk with
  | none => rw [hl] at h; exact Or.inl h
  | some tr =>
    rw [hl] at h
    rcases List.mem_append.mp h with h1 | h1
    · exact Or.inl h1
    · rcases List.mem_singleton.mp h1 with rfl
      exact Or.inr ⟨(tk, tr), mem_of_lookup_eq_some hl, rfl, rfl⟩

/-- Every trade in the ledger after a fold of closes was either already
closed or open before the fold started. -/
theorem foldl_close_closed_src (l : List (String × ℚ)) (d : ℤ) :
    ∀ (s : EngineState) (t : Trade),
      t ∈ (l.foldl (fun st q => close_position q.1 q.2 d st) s).closed_trades →
      t ∈ s.closed_trades ∨
      ∃ pr ∈ s.open_positions,
        t.ticker = pr.2.ticker ∧ t.entry_date = pr.2.entry_date := by
  induction l with
  | nil => intro s t h; exact Or.inl h
  | cons q rest ih =>
    intro s t h
    rcases ih (close_position q.1 q.2 d s) t h with h1 | ⟨pr, hpr, hpt⟩
    · exact close_position_closed_src q.1 q.2 d s t h1
    · rcases close_position_open_sub q.1 q.2 d s with he | he
      · rw [he] at hpr
        exact Or.inr ⟨pr, hpr, hpt⟩
      · rw [he] at hpr
        exact Or.inr ⟨pr, List.mem_of_mem_filter hpr, hpt⟩

/-- C6 (amended): in each step of the date loop the exit check
(`update`) runs strictly before the screening and `open`, so the closed
ledger after a step is exactly the ledger produced by the update phase, and
every trade closed during a step was already open (same ticker and entry
date) when the step began — a position opened on a date is never closed on
that same date.  (A ticker closed by the exit check may still be re-opened
by the same step's screening; see the counterexample.) -/
theorem update_precedes_open :
    ∀ (inv : ℚ) (data : List (String × List (ℤ × ℚ))) (s : EngineState)
      (d : ℤ),
      (simulate_step inv data s d).closed_trades =
        (update_open_positions data d s).closed_trades ∧
      ∀ t ∈ (simulate_step inv data s d).closed_trades,
        t ∈ s.closed_trades ∨
        ∃ pr ∈ s.open_positions,
          t.ticker = pr.2.ticker ∧ t.entry_date = pr.2.entry_date := by
  intro inv data s d
  have h1 : (simulate_step inv data s d).closed_trades =
      (update_open_positions data d s).closed_trades := by
    unfold simulate_step
    cases screen_for_date data d with
    | none => rfl
    | some w => exact open_position_closed_trades inv w d _
  refine ⟨h1, ?_⟩
  intro t ht
  rw [h1] at ht
  exact foldl_close_closed_src _ d s t ht

/-- Witness for C6 (amended) at a concrete step: with "A" open at entry
date 14 and the price at 21 above target, the step's ledger equals the
update phase's ledger and the closed trade stems from the pre-step open
position. -/
theorem update_precedes_open_witness :
    (simulate_step 50
        [("A",
          [(0,100),(1,100),(2,100),(3,100),(4,100),
           (5,50),(6,50),(7,50),(8,50),(9,50),
           (10,40),(11,40),(12,40),(13,40),(14,40),
           (15,80),(16,80),(17,80),(18,80),(19,80),
           (20,55),(21,55)])]
        ⟨[("A", ⟨"A", "A", 14, 40, 5/4, 50, none, none, none, none⟩)], []⟩
        21).closed_trades =
      (update_open_positions
        [("A",
          [(0,100),(1,100),(2,100),(3,100),(4,100),
           (5,50),(6,50),(7,50),(8,50),(9,50),
           (10,40),(11,40),(12,40),(13,40),(14,40),
           (15,80),(16,80),(17,80),(18,80),(19,80),
           (20,55),(21,55)])]
        21
        ⟨[("A", ⟨"A", "A", 14, 40, 5/4, 50, none, none, none, none⟩)],
         []⟩).closed_trades ∧
    ((⟨"A", "A", 14, 40, 5/4, 50, some 21, some 55, some 7,
        some (75/4)⟩ : Trade) ∈
      ([] : List Trade) ∨
     ∃ pr ∈ [("A",
        (⟨"A", "A", 14, 40, 5/4, 50, none, none, none, none⟩ : Trade))],
       (⟨"A", "A", 14, 40, 5/4, 50, some 21, some 55, some 7,
          some (75/4)⟩ : Trade).ticker = pr.2.ticker ∧
       (⟨"A", "A", 14, 40, 5/4, 50, some 21, some 55, some 7,
          some (75/4)⟩ : Trade).entry_date = pr.2.entry_date) :=
  ⟨(update_precedes_open 50 _ _ 21).1,
   (update_precedes_open 50
      [("A",
        [(0,100),(1,100),(2,100),(3,100),(4,100),
         (5,50),(6,50),(7,50),(8,50),(9,50),
         (10,40),(11,40),(12,40),(13,40),(14,40),
         (15,80),(16,80),(17,80),(18,80),(19,80),
         (20,55),(21,55)])]
      ⟨[("A", ⟨"A", "A", 14, 40, 5/4, 50, none, none, none, none⟩)], []⟩
      21).2
    ⟨"A", "A", 14, 40, 5/4, 50, some 21, some 55, some 7, some (75/4)⟩
    (by decide)⟩

/-- Counterexample to C6 as stated: a reachable execution of the date loop
(one ticker "A", screening dates 0, 7, 14, 21 from the empty initial state)
in which the position opened at date 14 is closed by the exit check of date
21 (price 55 ≥ target 50) and the very same screening then re-opens "A" at
date 21 — a close and a re-open of the same ticker on the same date. -/
theorem close_reopen_same_date_counterexample :
    screeningDates 0 21 7 = [0, 7, 14, 21] ∧
    ((simulate_screenings 50
        [("A",
          [(0,100),(1,100),(2,100),(3,100),(4,100),
           (5,50),(6,50),(7,50),(8,50),(9,50),
           (10,40),(11,40),(12,40),(13,40),(14,40),
           (15,80),(16,80),(17,80),(18,80),(19,80),
           (20,55),(21,55)])]
        0 21 7 initState).closed_trades.any
      (fun t => t.ticker == "A" && t.exit_date == some 21)) = true ∧
    ((simulate_screenings 50
        [("A",
          [(0,100),(1,100),(2,100),(3,100),(4,100),
           (5,50),(6,50),(7,50),(8,50),(9,50),
           (10,40),(11,40),(12,40),(13,40),(14,40),
           (15,80),(16,80),(17,80),(18,80),(19,80),
           (20,55),(21,55)])]
        0 21 7 initState).open_positions.any
      (fun p => p.1 == "A" && p.2.entry_date == 21)) = true := by
  refine ⟨by decide, by decide, by decide⟩

/-! ### C7 -/

/-- The eight bucket labels in range order. -/
def labels : List String := bucketRanges.map (fun r => r.2.2)

/-- Sum of the histogram counts over the eight buckets: the dict only ever
holds these keys, so this is the sum of the dict's values. -/
def labelSum (f : String → ℕ) : ℕ := (labels.map f).sum

/-- Incrementing one key raises the label sum by that key's multiplicity. -/
theorem map_incr_sum (ls : List String) (f : String → ℕ) (k : String) :
    (ls.map (incr f k)).sum = (ls.map f).sum + ls.count k := by
  induction ls with
  | nil => rfl
  | cons a t ih =>
    simp only [List.map_cons, List.sum_cons, ih, List.count_cons, incr,
      beq_iff_eq]
    by_cases h : a = k
    · subst h
      simp
      omega
    · have h' : ¬ k = a := fun hc => h hc.symm
      simp [h, h']
      omega

/-- Every positive day count lands in some bucket whose label occurs exactly
once among the labels. -/
theorem firstBucket_pos (d : ℤ) (hd : 0 < d) :
    ∃ lab, firstBucket d = some lab ∧ labels.count lab = 1 := by
  obtain ⟨r, hr, hir⟩ : ∃ r ∈ bucketRanges, inBucket d r = true := by
    by_cases h7 : d < 7
    · exact ⟨(0, some 7, "0-7 days"), by decide, by
        simp [inBucket]; omega⟩
    · by_cases h14 : d < 14
      · exact ⟨(7, some 14, "7-14 days"), by decide, by
          simp [inBucket]; omega⟩
      · by_cases h30 : d < 30
        · exact ⟨(14, some 30, "14-30 days"), by decide, by
            simp [inBucket]; omega⟩
        · by_cases h60 : d < 60
          · exact ⟨(30, some 60, "30-60 days"), by decide, by
              simp [inBucket]; omega⟩
          · by_cases h90 : d < 90
            · exact ⟨(60, some 90, "60-90 days"), by decide, by
                simp [inBucket]; omega⟩
            · by_cases h180 : d < 180
              · exact ⟨(90, some 180, "90-180 days"), by decide, by
                  simp [inBucket]; omega⟩
              · by_cases h365 : d < 365
                · exact ⟨(180, some 365, "180-365 days"), by decide, by
                    simp [inBucket]; omega⟩
                · exact ⟨(365, none, "365+ days"), by decide, by
                    simp [inBucket]; omega⟩
  obtain ⟨r', hfind⟩ : ∃ r', bucketRanges.find? (inBucket d) = some r' := by
    have : (bucketRanges.find? (inBucket d)).isSome := by
      rw [List.find?_isSome]
      exact ⟨r, hr, hir⟩
    exact Option.isSome_iff_exists.mp this
  refine ⟨r'.2.2, by rw [firstBucket, hfind]; rfl, ?_⟩
  have hmem : r' ∈ bucketRanges := List.mem_of_find?_eq_some hfind
  have hlab : r'.2.2 ∈ labels := List.mem_map_of_mem _ hmem
  exact List.count_eq_one_of_mem (by decide) hlab

/-- Folding positive day counts into the histogram adds one to the label sum
per element. -/
theorem labelSum_foldl (l : List ℤ) :
    ∀ f : String → ℕ, (∀ x ∈ l, 0 < x) →
    labelSum (l.foldl (fun dist days =>
      match firstBucket days with
      | some label => incr dist label
      | none => dist) f) = labelSum f + l.length := by
  induction l with
  | nil => intro f _; rfl
  | cons d t ih =>
    intro f h
    obtain ⟨lab, hfb, hcount⟩ := firstBucket_pos d (h d (List.mem_cons_self d t))
    rw [List.foldl_cons, hfb]
    rw [ih (incr f lab) (fun x hx => h x (List.mem_cons_of_mem d hx))]
    rw [labelSum, labelSum, map_incr_sum, hcount]
    simp only [List.length_cons]
    omega

/-- The truthy holding-day list is as long as the count of closed trades
with a present, nonzero `holding_days`. -/
theorem closedHoldingDays_length (closed : List Trade) :
    (closedHoldingDays closed).length =
      closed.countP (fun t =>
        match t.holding_days with
        | some h => decide (h ≠ 0)
        | none => false) := by
  induction closed with
  | nil => rfl
  | cons t rest ih =>
    rw [closedHoldingDays] at ih ⊢
    rw [List.filterMap_cons, List.countP_cons]
    cases ht : t.holding_days with
    | none =>
      simp only [ht]
      simpa using ih
    | some h =>
      by_cases hz : h = 0
      · simp only [ht, hz]
        simpa using ih
      · have hd : (decide (h ≠ 0)) = true := by simp [hz]
        simp only [ht, if_pos hz, List.length_cons, if_pos hd]
        omega

/-- Every element of the truthy holding-day list is positive when all
holding counts are non-negative. -/
theorem closedHoldingDays_pos (closed : List Trade)
    (h : ∀ t ∈ closed, ∀ k : ℤ, t.holding_days = some k → 0 ≤ k) :
    ∀ x ∈ closedHoldingDays closed, 0 < x := by
  intro x hx
  obtain ⟨t, ht, hfx⟩ := List.mem_filterMap.mp hx
  cases hh : t.holding_days with
  | none => rw [hh] at hfx; cases hfx
  | some k =>
    rw [hh] at hfx
    by_cases hz : k = 0
    · simp [hz] at hfx
    · simp only [hz, ne_eq, not_false_eq_true, if_pos,
        Option.some.injEq] at hfx
      have := h t ht k hh
      omega

/-- C7 (amended): for closed trades with non-negative holding counts, the
holding-period histogram partitions exactly the trades with a present and
nonzero `holding_days`: the bucket counts sum to the number of such trades
(a trade with `holding_days = 0` is dropped by the Python truthiness filter
and is counted nowhere), and every positive day count lies in exactly one
of the eight half-open buckets. -/
theorem histogram_partition_nonzero :
    ∀ closed : List Trade,
      (∀ t ∈ closed, ∀ k : ℤ, t.holding_days = some k → 0 ≤ k) →
      labelSum (create_holding_distribution (closedHoldingDays closed)) =
        closed.countP (fun t =>
          match t.holding_days with
          | some h => decide (h ≠ 0)
          | none => false) ∧
      ∀ d : ℤ, 0 < d → bucketRanges.countP (inBucket d) = 1 := by
  intro closed h
  constructor
  · rw [create_holding_distribution]
    by_cases he : (closedHoldingDays closed).isEmpty
    · rw [if_pos he]
      have hnil : closedHoldingDays closed = [] := by
        exact List.isEmpty_iff.mp he
      rw [← closedHoldingDays_length closed, hnil]
      rfl
    · rw [if_neg he]
      rw [labelSum_foldl (closedHoldingDays closed) (fun _ => 0)
        (closedHoldingDays_pos closed h)]
      rw [← closedHoldingDays_length closed]
      have hz : labelSum (fun _ => 0) = 0 := by decide
      omega
  · intro d hd
    simp only [bucketRanges, List.countP_cons, List.countP_nil, inBucket,
      Bool.and_true, Bool.and_eq_true, decide_eq_true_eq]
    split_ifs <;> omega

/-- Witness for C7 (amended): one closed trade held 7 days lands in the
"7-14 days" bucket, the label sum is 1, and day count 5 lies in exactly one
bucket. -/
theorem histogram_partition_nonzero_witness :
    labelSum (create_holding_distribution (closedHoldingDays
      [⟨"A", "A", 0, 25, 2, 30, some 7, some 30, some 7, some 10⟩])) =
      ([⟨"A", "A", 0, 25, 2, 30, some 7, some 30, some 7, some 10⟩] :
        List Trade).countP (fun t =>
          match t.holding_days with
          | some h => decide (h ≠ 0)
          | none => false) ∧
    bucketRanges.countP (inBucket 5) = 1 :=
  ⟨(histogram_partition_nonzero
      [⟨"A", "A", 0, 25, 2, 30, some 7, some 30, some 7, some 10⟩]
      (by decide)).1,
   (histogram_partition_nonzero
      [⟨"A", "A", 0, 25, 2, 30, some 7, some 30, some 7, some 10⟩]
      (by decide)).2 5 (by decide)⟩

/-- Counterexample to C7 as stated: a closed trade with
`holding_days = some 0` has a holding_days value, yet the histogram is
empty — the bucket counts sum to 0, not 1, and the trade is counted in no
bucket (in particular not in [0,7) as the half-open semantics would
demand). -/
theorem histogram_zero_holding_counterexample :
    labelSum (create_holding_distribution (closedHoldingDays
      [⟨"A", "A", 0, 25, 2, 25, some 0, some 25, some 0, some 0⟩])) = 0 ∧
    ([⟨"A", "A", 0, 25, 2, 25, some 0, some 25, some 0, some 0⟩] :
      List Trade).countP (fun t => (t.holding_days).isSome) = 1 ∧
    (create_holding_distribution (closedHoldingDays
      [⟨"A", "A", 0, 25, 2, 25, some 0, some 25, some 0, some 0⟩]))
      "0-7 days" = 0 := by
  refine ⟨by decide, by decide, by decide⟩

/-! ### C5 -/

/-- The 11-point scenario series of spec §8: five 100s, one 90, five 100s,
on consecutive integer dates. -/
def series11 : List (ℤ × ℚ) :=
  [(0,100),(1,100),(2,100),(3,100),(4,100),(5,90),
   (6,100),(7,100),(8,100),(9,100),(10,100)]

/-- Counterexample to C5 as stated: invoked by the Candidate Selector with
the truncated series being the whole 11-point series (screening date 10),
the evaluator sees only the trailing 10 observations — the 90 point sits at
window position 4, too early to end any 5-session window — and returns a
worst return of 0% (window from date 1 to date 6, both at price 100), not
≈ −10% ending at the 90 point; the selector consequently reports no
candidate. -/
theorem selector_scenario_counterexample :
    calculate_worst_5day_performance (recentWindow series11 10) =
      some ⟨0, 1, 6, 100, 100⟩ ∧
    (calculate_worst_5day_performance (recentWindow series11 10)).map
      WorstPerformance.return_pct ≠ some (-10) ∧
    screen_for_date [("A", series11)] 10 = none := by
  refine ⟨by decide, by decide, by decide⟩

/-- C5 (amended): on the same series the scenario does hold at the screening
date of the 10th observation (date 9): the truncated series is the first 10
points, the evaluator's trailing window is all of them, and the worst 5-day
return is exactly −10.0%, from date 0 (price 100) to the 90 point at date 5
(end price 90). -/
theorem selector_scenario_tenth_observation :
    calculate_worst_5day_performance (recentWindow series11 9) =
      some ⟨-10, 0, 5, 100, 90⟩ ∧
    recentWindow series11 9 = series11.filter (fun p => decide (p.1 ≤ 9)) := by
  refine ⟨by decide, by decide⟩

/-! ### C8 -/

/-- In a strictly date-sorted series an exact-date hit is also the last
observation on or before that date. -/
theorem lookup_sorted_getLast (hist : List (ℤ × ℚ)) (d : ℤ) (q : ℚ)
    (hs : hist.Pairwise (fun a b => a.1 < b.1))
    (h : hist.lookup d = some q) :
    (hist.filter (fun p => decide (p.1 ≤ d))).getLast? = some (d, q) := by
  induction hist with
  | nil => cases h
  | cons p t ih =>
    obtain ⟨k, v⟩ := p
    obtain ⟨h1, h2⟩ := List.pairwise_cons.mp hs
    rw [List.lookup] at h
    by_cases hbeq : d = k
    · subst hbeq
      rw [beq_self_eq_true] at h
      have hv : v = q := by cases h; rfl
      subst hv
      have hkd : (decide ((((d, v)) : ℤ × ℚ).1 ≤ d)) = true := by simp
      rw [List.filter, hkd]
      have hnil : t.filter (fun p => decide (p.1 ≤ d)) = [] := by
        rw [List.filter_eq_nil_iff]
        intro a ha
        have := h1 a ha
        simp only [decide_eq_true_eq]
        omega
      rw [hnil]
      rfl
    · have hb : (d == k) = false := beq_eq_false_iff_ne.mpr hbeq
      rw [hb] at h
      have htail := ih (List.Pairwise.of_cons hs) h
      by_cases hkd : k ≤ d
      · have hc : (decide ((((k, v)) : ℤ × ℚ).1 ≤ d)) = true := by
          simp [hkd]
        rw [List.filter, hc]
        cases hft : t.filter (fun p => decide (p.1 ≤ d)) with
        | nil => rw [hft] at htail; cases htail
        | cons a l =>
          rw [hft] at htail
          rw [List.getLast?_cons_cons]
          exact htail
      · have hc : (decide ((((k, v)) : ℤ × ℚ).1 ≤ d)) = false := by
          simp [hkd]
        rw [List.filter, hc]
        exact htail

/-- C8: on a strictly date-sorted price series, `get_price_on_date` returns
exactly the closing price of the latest observation on or before the query
date (the exact-date branch and the nearest-prior fallback agree with the
spec's `get_price_on_or_before`), and it returns `none` exactly when the
series has no observation on or before the query date. -/
theorem price_lookup_on_or_before (hist : List (ℤ × ℚ)) (d : ℤ)
    (hs : hist.Pairwise (fun a b => a.1 < b.1)) :
    get_price_on_date hist d = lastPriceOnOrBefore hist d ∧
    (get_price_on_date hist d = none ↔ ∀ q ∈ hist, ¬ q.1 ≤ d) := by
  have h1 : get_price_on_date hist d = lastPriceOnOrBefore hist d := by
    unfold get_price_on_date lastPriceOnOrBefore
    cases hl : hist.lookup d with
    | some q =>
      rw [lookup_sorted_getLast hist d q hs hl]
      rfl
    | none =>
      cases hg : (hist.filter (fun p => decide (p.1 ≤ d))).getLast? with
      | some r => rfl
      | none => rfl
  refine ⟨h1, ?_⟩
  rw [h1]
  unfold lastPriceOnOrBefore
  rw [Option.map_eq_none']
  rw [List.getLast?_eq_none_iff]
  rw [List.filter_eq_nil_iff]
  simp only [decide_eq_true_eq]

/-- Witness for C8 on a concrete sorted series: querying date 1 between the
observations at dates 0 and 2 returns the date-0 close via the
nearest-prior fallback. -/
theorem price_lookup_on_or_before_witness :
    (get_price_on_date [(0, 10), (2, 12)] 1 =
      lastPriceOnOrBefore [(0, 10), (2, 12)] 1 ∧
    (get_price_on_date [(0, 10), (2, 12)] 1 = none ↔
      ∀ q ∈ ([(0, 10), (2, 12)] : List (ℤ × ℚ)), ¬ q.1 ≤ 1)) ∧
    get_price_on_date [(0, 10), (2, 12)] 1 = some 10 :=
  ⟨price_lookup_on_or_before [(0, 10), (2, 12)] 1 (by decide), by decide⟩

/-! ### C10 -/

/-- The core `Rat.floor` is Mathlib's integer floor on `ℚ`. -/
theorem ratFloor_intCast (n : ℤ) : Rat.floor ((n : ℚ)) = n := by
  have h : Rat.floor ((n : ℚ)) = ⌊(n : ℚ)⌋ := rfl
  rw [h, Int.floor_intCast]

/-- Rounding an integer-valued rational returns that integer. -/
theorem pyRoundHalfEven_intCast (n : ℤ) : pyRoundHalfEven ((n : ℚ)) = n := by
  unfold pyRoundHalfEven
  simp only [ratFloor_intCast, sub_self]
  norm_num

/-- Two-decimal rounding is idempotent: a `pyRound2` output is a fixed
point of `pyRound2`. -/
theorem pyRound2_idem (x : ℚ) : pyRound2 (pyRound2 x) = pyRound2 x := by
  unfold pyRound2
  rw [div_mul_cancel₀ _ (by norm_num : (100 : ℚ) ≠ 0)]
  rw [pyRoundHalfEven_intCast]

/-- Every field of a successful evaluator result is already rounded to two
decimals. -/
theorem calc_fields_rounded (hist : List (ℤ × ℚ)) (wp : WorstPerformance)
    (h : calculate_worst_5day_performance hist = some wp) :
    pyRound2 wp.return_pct = wp.return_pct ∧
    pyRound2 wp.start_price = wp.start_price ∧
    pyRound2 wp.end_price = wp.end_price := by
  rw [calculate_worst_5day_performance] at h
  split at h
  · cases h
  · split at h
    · cases h
    · dsimp only [] at h
      split at h
      · cases h
      · cases h
        exact ⟨pyRound2_idem _, pyRound2_idem _, pyRound2_idem _⟩

/-- The target price of any selected candidate is the evaluator's
(rounded) worst-window start price. -/
theorem screen_target_from_calc (data : List (String × List (ℤ × ℚ)))
    (d : ℤ) (info : StockInfo) (h : screen_for_date data d = some info) :
    ∃ (hist : List (ℤ × ℚ)) (wp : WorstPerformance),
      calculate_worst_5day_performance (recentWindow hist d) = some wp ∧
      info.target_price = wp.start_price := by
  unfold screen_for_date at h
  dsimp only [] at h
  split at h
  · cases h
  · have hmem :
        info ∈ (data.filterMap
          (fun p => screen_candidate d p.1 p.2)).insertionSort
            (fun a b => a.return_pct ≤ b.return_pct) := by
      cases hsort : (data.filterMap
          (fun p => screen_candidate d p.1 p.2)).insertionSort
            (fun a b => a.return_pct ≤ b.return_pct) with
      | nil => rw [hsort] at h; cases h
      | cons a l =>
        rw [hsort] at h
        cases h
        exact List.mem_cons_self _ _
    have hC : info ∈ data.filterMap (fun p => screen_candidate d p.1 p.2) :=
      (List.perm_insertionSort
        (fun a b : StockInfo => a.return_pct ≤ b.return_pct) _).mem_iff.mp hmem
    obtain ⟨p, _, hpc⟩ := List.mem_filterMap.mp hC
    unfold screen_candidate at hpc
    split at hpc
    · cases hpc
    · split at hpc
      · cases hpc
      · rename_i perf hcalc
        split at hpc
        · cases hpc
        · split at hpc
          · cases hpc
          · cases hpc
            exact ⟨p.2, perf, hcalc, rfl⟩

/-- C10: the Rolling-Window Performance Evaluator rounds every field of its
result to two decimals — `return_pct`, `start_price` and `end_price` are all
fixed points of two-decimal rounding — and consequently the target price of
any candidate selected by the screener (the worst-window start price, which
later exit comparisons use) is a two-decimal-rounded price. -/
theorem evaluator_rounds_two_decimals :
    (∀ (hist : List (ℤ × ℚ)) (wp : WorstPerformance),
      calculate_worst_5day_performance hist = some wp →
      pyRound2 wp.return_pct = wp.return_pct ∧
      pyRound2 wp.start_price = wp.start_price ∧
      pyRound2 wp.end_price = wp.end_price) ∧
    (∀ (data : List (String × List (ℤ × ℚ))) (d : ℤ) (info : StockInfo),
      screen_for_date data d = some info →
      pyRound2 info.target_price = info.target_price) := by
  refine ⟨calc_fields_rounded, ?_⟩
  intro data d info h
  obtain ⟨hist, wp, hcalc, htp⟩ := screen_target_from_calc data d info h
  rw [htp]
  exact (calc_fields_rounded _ _ hcalc).2.1

/-- Witness for C10 on the scenario series at screening date 9: the
evaluator result (−10, 100, 90) has rounded fields, and the selected
candidate's target price 100 is a rounding fixed point. -/
theorem evaluator_rounds_two_decimals_witness :
    (pyRound2 ((⟨-10, 0, 5, 100, 90⟩ : WorstPerformance)).return_pct =
        ((⟨-10, 0, 5, 100, 90⟩ : WorstPerformance)).return_pct ∧
      pyRound2 ((⟨-10, 0, 5, 100, 90⟩ : WorstPerformance)).start_price =
        ((⟨-10, 0, 5, 100, 90⟩ : WorstPerformance)).start_price ∧
      pyRound2 ((⟨-10, 0, 5, 100, 90⟩ : WorstPerformance)).end_price =
        ((⟨-10, 0, 5, 100, 90⟩ : WorstPerformance)).end_price) ∧
    pyRound2 ((⟨"A", -10, 100, 100, "A"⟩ : StockInfo)).target_price =
      ((⟨"A", -10, 100, 100, "A"⟩ : StockInfo)).target_price :=
  ⟨evaluator_rounds_two_decimals.1 (recentWindow series11 9)
      ⟨-10, 0, 5, 100, 90⟩ (by decide),
   evaluator_rounds_two_decimals.2 [("A", series11)] 9
      ⟨"A", -10, 100, 100, "A"⟩ (by decide)⟩
